import Mathlib

/-!
# openexchangerate: the rate cache of `src/openexchangerate/main.go`

A shallow embedding of `convert`, `refreshCurrencyRates` and `requestRates`
together with the parts of the Go runtime and standard library their
behaviour depends on:

* `float64` arithmetic (IEEE-754 binary64, round to nearest even),
* `time.Unix`, `Time.Unix`, `Time.Sub` (int64 seconds, saturating durations),
* `json.Unmarshal` into the package-level `*RateStore` and `json.Marshal`,
* the two mutexes, the rates file and the provider request.

The process state is a `World`; everything the surroundings decide during one
call (clock readings, the provider's answer, the fate of the file write) is
an `Env`.
-/

namespace OpenExchangeRate

/-! ## float64 -/

/-- A float64 value. `fin neg m e` is `(-1)^neg * m * 2^e`; the values produced
by the operations below have `m < 2^53`, `-1074 ≤ e ≤ 971` and
`2^52 ≤ m` unless `e = -1074` (subnormals and the two zeros). -/
inductive F64
  | nan
  | inf (neg : Bool)
  | fin (neg : Bool) (m : Nat) (e : Int)
deriving DecidableEq

/-- Number of binary digits of `n`, with explicit fuel. -/
def bitLenAux : Nat → Nat → Nat
  | 0, _ => 0
  | fuel + 1, n => if n = 0 then 0 else bitLenAux fuel (n / 2) + 1

/-- Number of binary digits of `n` (`0` for `0`). -/
def bitLen (n : Nat) : Nat := bitLenAux n n

/-- The integer `l` with `2^l ≤ n/d < 2^(l+1)`, for positive `n` and `d`. -/
def floorLog2 (n d : Nat) : Int :=
  let g : Int := (bitLen n : Int) - (bitLen d : Int)
  if d * 2 ^ g.toNat ≤ n * 2 ^ (-g).toNat then g else g - 1

/-- Round the non-negative rational `n/d` to the nearest float64, ties to even,
overflowing to infinity and underflowing gradually; `neg` is the sign. -/
def roundRat (neg : Bool) (n d : Nat) : F64 :=
  if n = 0 then F64.fin neg 0 (-1074) else
  let e : Int := max (floorLog2 n d - 52) (-1074)
  let num := n * 2 ^ (-e).toNat
  let den := d * 2 ^ e.toNat
  let q := num / den
  let r := num % den
  let m := if den < 2 * r ∨ (2 * r = den ∧ q % 2 = 1) then q + 1 else q
  let m1 := if m = 2 ^ 53 then 2 ^ 52 else m
  let e1 := if m = 2 ^ 53 then e + 1 else e
  if 971 < e1 then F64.inf neg else F64.fin neg m1 e1

/-- Go's `x * y` on float64. -/
def F64.mul : F64 → F64 → F64
  | .nan, _ => .nan
  | _, .nan => .nan
  | .inf s, .inf t => .inf (xor s t)
  | .inf s, .fin t m _ => if m = 0 then .nan else .inf (xor s t)
  | .fin s m _, .inf t => if m = 0 then .nan else .inf (xor s t)
  | .fin s m e, .fin t n f =>
      roundRat (xor s t) (m * n * 2 ^ (e + f).toNat) (2 ^ (-(e + f)).toNat)

/-- Go's `x / y` on float64 (no run-time panic on a zero divisor). -/
def F64.div : F64 → F64 → F64
  | .nan, _ => .nan
  | _, .nan => .nan
  | .inf _, .inf _ => .nan
  | .inf s, .fin t _ _ => .inf (xor s t)
  | .fin s _ _, .inf t => .fin (xor s t) 0 (-1074)
  | .fin s m e, .fin t n f =>
      if n = 0 then (if m = 0 then .nan else .inf (xor s t))
      else roundRat (xor s t) (m * 2 ^ (e - f).toNat) (n * 2 ^ (-(e - f)).toNat)

/-- The float64 nearest to the decimal `digits * 10^exp10`. -/
def F64.ofDec (neg : Bool) (digits : Nat) (exp10 : Int) : F64 :=
  roundRat neg (digits * 10 ^ exp10.toNat) (10 ^ (-exp10).toNat)

/-- The zero value of float64. -/
def F64.zero : F64 := .fin false 0 (-1074)

/-- Neither infinite nor NaN. -/
def F64.isFinite : F64 → Bool
  | .fin _ _ _ => true
  | _ => false

/-- Plus or minus zero. -/
def F64.isZero : F64 → Bool
  | .fin _ m _ => m = 0
  | _ => false

/-- Strictly greater than zero. -/
def F64.isPos : F64 → Bool
  | .fin false m _ => 0 < m
  | .inf false => true
  | _ => false

/-- Infinite or NaN. -/
def F64.isInfOrNaN : F64 → Bool
  | .fin _ _ _ => false
  | _ => true

/-- The integer a finite float64 denotes, when it denotes one. -/
def F64.toInt : F64 → Option Int
  | .fin s m e =>
      let sign : Int := if s then -1 else 1
      if 0 ≤ e then some (sign * (m * 2 ^ e.toNat))
      else if m % 2 ^ (-e).toNat = 0 then some (sign * (m / 2 ^ (-e).toNat))
      else none
  | _ => none

/-! ## int64 and package time -/

/-- Two's-complement wrap-around of int64 arithmetic. -/
def wrap64 (x : Int) : Int := (x + 2 ^ 63) % 2 ^ 64 - 2 ^ 63

/-- Whether `x` is an int64 value. -/
def inInt64 (x : Int) : Bool := decide (-(2 ^ 63) ≤ x) && decide (x < 2 ^ 63)

/-- A `time.Time` wall-clock instant: seconds since January 1 of year 1
(an int64) and nanoseconds within the second. -/
structure Time where
  sec : Int
  nsec : Int
deriving DecidableEq

/-- Seconds from year 1 to 1970 (`time.unixToInternal`). -/
def unixToInternal : Int := 62135596800

/-- Go's `time.Unix(sec, 0)`: the internal seconds are `sec + unixToInternal`
in int64 arithmetic, so the largest `sec` values do not denote the instant
they name ("not all sec values have a corresponding time value"). -/
def timeUnix (sec : Int) : Time := { sec := wrap64 (sec + unixToInternal), nsec := 0 }

/-- Go's `t.Unix()`. -/
def Time.Unix (t : Time) : Int := wrap64 (t.sec - unixToInternal)

/-- Largest `time.Duration`, in nanoseconds. -/
def maxDuration : Int := 2 ^ 63 - 1

/-- Smallest `time.Duration`, in nanoseconds. -/
def minDuration : Int := -(2 ^ 63)

/-- Go's `time.Hour`, in nanoseconds. -/
def Hour : Int := 3600 * 1000000000

/-- Go's `t.Sub(u)`: the elapsed nanoseconds, saturating at the ends of the
`Duration` range. -/
def Time.Sub (t u : Time) : Int :=
  let d := (t.sec - u.sec) * 1000000000 + (t.nsec - u.nsec)
  if maxDuration < d then maxDuration else if d < minDuration then minDuration else d

/-- Exact nanoseconds from the start of Unix second `ts` to the clock reading
`now` (no saturation, no wrap-around): the spec's `now - timestamp`. -/
def elapsed (now : Time) (ts : Int) : Int :=
  (now.sec - unixToInternal) * 1000000000 + now.nsec - ts * 1000000000

/-! ## Errors -/

/-- The error values the program handles: `errors.New(msg)`, the errors of
`http.Get`, `ioutil.ReadAll` and `ioutil.WriteFile` with their messages, a
`*json.SyntaxError`, and a `*json.UnmarshalTypeError` with the kind of JSON
value it names. -/
inductive Error
  | text (msg : String)
  | net (msg : String)
  | bodyRead (msg : String)
  | jsonInvalid
  | jsonType (value : String)
  | file (msg : String)
deriving DecidableEq

/-! ## JSON documents -/

/-- A JSON number literal, characterised by what the decoder can ask of it:
`strconv.ParseInt(lit, 10, 64)` (`none` on a syntax or range error),
`strconv.ParseFloat(lit, 64)` (the nearest float64, infinite on a range
error), and `afterRange`, the float64 a map element holds once the decoder has
reported a range error on the literal. Releases of encoding/json differ on
the last: the element keeps the zero it started from, or it receives the
out-of-range result. Nothing below depends on which. -/
structure NumLit where
  int : Option Int
  float : F64
  afterRange : F64
deriving DecidableEq

/-- A syntactically valid JSON text, members in document order. -/
inductive JSON
  | null
  | bool (b : Bool)
  | num (n : NumLit)
  | str (s : String)
  | arr (xs : List JSON)
  | obj (kvs : List (String × JSON))

/-- The bytes of the rates file or of a response body, characterised by what
the JSON scanner makes of them. -/
inductive Content
  | invalid
  | valid (j : JSON)

/-- The `Value` an `UnmarshalTypeError` reports for a JSON text. -/
def JSON.kind : JSON → String
  | .null => "null"
  | .bool _ => "bool"
  | .num _ => "number"
  | .str _ => "string"
  | .arr _ => "array"
  | .obj _ => "object"

/-! ## RateStore -/

/-- RateStore is used to keep most recent rates in memory. `Rates = none` is
the nil map; a non-nil map is an association list kept in key order. -/
structure RateStore where
  Timestamp : Int
  Base : String
  Rates : Option (List (String × F64))
deriving DecidableEq

/-- The zero value of `RateStore`. -/
def RateStore.zero : RateStore := { Timestamp := 0, Base := "", Rates := none }

/-- Lookup in an association list. -/
def assocGet (k : String) : List (String × F64) → Option F64
  | [] => none
  | (k0, v0) :: rest => if k = k0 then some v0 else assocGet k rest

/-- Go's `v, exists := m[k]`; a nil map has no entries. -/
def mapGet (m : Option (List (String × F64))) (k : String) : Option F64 :=
  match m with
  | none => none
  | some l => assocGet k l

/-- Lexicographic order on lists of code points. -/
def codesLt : List Nat → List Nat → Bool
  | _, [] => false
  | [], _ :: _ => true
  | a :: as, b :: bs => if a < b then true else if b < a then false else codesLt as bs

/-- The order in which `json.Marshal` writes map keys. -/
def keyLt (a b : String) : Bool :=
  codesLt (a.toList.map Char.toNat) (b.toList.map Char.toNat)

/-- Go's `m[k] = v` on a non-nil map. -/
def mapSet (k : String) (v : F64) : List (String × F64) → List (String × F64)
  | [] => [(k, v)]
  | (k0, v0) :: rest =>
      if k = k0 then (k, v) :: rest
      else if keyLt k k0 then (k, v) :: (k0, v0) :: rest
      else (k0, v0) :: mapSet k v rest

/-- Every stored rate is finite. -/
def ratesFinite (m : Option (List (String × F64))) : Bool :=
  match m with
  | none => true
  | some l => l.all (fun kv => kv.2.isFinite)

/-! ## json.Unmarshal into the package-level `*RateStore` -/

/-- The fields of `RateStore`, by their json tags. -/
inductive Field
  | timestamp
  | base
  | rates
deriving DecidableEq

/-- Case folding of one key character as package json compares object keys
with field names: ASCII capitals, the long s and the Kelvin sign fold onto
their lower-case ASCII letter. -/
def foldRune (c : Char) : Nat :=
  let n := c.toNat
  if 65 ≤ n ∧ n ≤ 90 then n + 32
  else if n = 383 then 115
  else if n = 8490 then 107
  else n

/-- Case folding of an object key. -/
def foldName (s : String) : List Nat := s.toList.map foldRune

/-- The struct field an object key selects: an exact match of the json tag,
else a match up to case folding; other keys are skipped. -/
def findField (key : String) : Option Field :=
  if foldName key = foldName "timestamp" then some .timestamp
  else if foldName key = foldName "base" then some .base
  else if foldName key = foldName "rates" then some .rates
  else none

/-- The part of package json's `decodeState` that matters here: the struct
being filled and the first type error met. -/
structure Dec where
  store : RateStore
  savedError : Option Error
deriving DecidableEq

/-- Go's `d.saveError`: only the first error is kept. -/
def Dec.saveError (d : Dec) (err : Error) : Dec :=
  match d.savedError with
  | none => { d with savedError := some err }
  | some _ => d

/-- The decoder's use of `strconv.ParseInt` for an int64 field. -/
def parseInt64 (n : NumLit) : Option Int :=
  match n.int with
  | some i => if inInt64 i then some i else none
  | none => none

/-- The decoder's use of `strconv.ParseFloat` for a float64: a range error
comes with an infinite result. -/
def parseFloat64 (n : NumLit) : Option F64 :=
  if n.float.isFinite then some n.float else none

/-- Decode a JSON value into `Timestamp int64`. -/
def decodeTimestamp (v : JSON) (d : Dec) : Dec :=
  match v with
  | .null => d
  | .num n =>
      match parseInt64 n with
      | some i => { d with store := { d.store with Timestamp := i } }
      | none => d.saveError (.jsonType "number")
  | v => d.saveError (.jsonType v.kind)

/-- Decode a JSON value into `Base string`. -/
def decodeBase (v : JSON) (d : Dec) : Dec :=
  match v with
  | .null => d
  | .str s => { d with store := { d.store with Base := s } }
  | v => d.saveError (.jsonType v.kind)

/-- Decode one member of the `rates` object: the map element starts from zero,
a number is stored when it parses, `null` and mismatches leave the zero, a
number out of range reports an error and leaves `afterRange`, and the element
is written to the map in every case. -/
def decodeRate (acc : List (String × F64) × Option Error) (kv : String × JSON) :
    List (String × F64) × Option Error :=
  match kv.2 with
  | .null => (mapSet kv.1 F64.zero acc.1, acc.2)
  | .num n =>
      match parseFloat64 n with
      | some x => (mapSet kv.1 x acc.1, acc.2)
      | none =>
          (mapSet kv.1 n.afterRange acc.1, acc.2.orElse (fun _ => some (.jsonType "number")))
  | v => (mapSet kv.1 F64.zero acc.1, acc.2.orElse (fun _ => some (.jsonType v.kind)))

/-- Decode a JSON value into `Rates map[string]float64`: `null` sets the map
to nil, an object is merged into the existing map (a nil map is made first). -/
def decodeRates (v : JSON) (d : Dec) : Dec :=
  match v with
  | .null => { d with store := { d.store with Rates := none } }
  | .obj kvs =>
      let r := kvs.foldl decodeRate ((d.store.Rates.getD []), d.savedError)
      { store := { d.store with Rates := some r.1 }, savedError := r.2 }
  | v => d.saveError (.jsonType v.kind)

/-- Decode one member of the top-level object. -/
def decodeMember (d : Dec) (kv : String × JSON) : Dec :=
  match findField kv.1 with
  | some .timestamp => decodeTimestamp kv.2 d
  | some .base => decodeBase kv.2 d
  | some .rates => decodeRates kv.2 d
  | none => d

/-- Go's `json.Unmarshal(bytes, &rateStore)`, from the pointer held before to
the pointer held after and the error returned. Invalid bytes leave the
pointer alone; `null` sets it to nil; any other text first allocates a zero
`RateStore` if the pointer is nil and then decodes INTO the struct it points
to, so fields and map entries the text does not mention keep their values. -/
def unmarshal (bytes : Content) (p : Option RateStore) : Option RateStore × Option Error :=
  match bytes with
  | .invalid => (p, some .jsonInvalid)
  | .valid .null => (none, none)
  | .valid (.obj kvs) =>
      let d := kvs.foldl decodeMember { store := p.getD RateStore.zero, savedError := none }
      (some d.store, d.savedError)
  | .valid v => (some (p.getD RateStore.zero), some (.jsonType v.kind))

/-! ## The decoder, field by field

`decodeMember` acts on the three fields of the store independently; the
functions below are its action on each of them. -/

/-- The float64 one member of the `rates` object leaves in the map. -/
def rateValue : JSON → F64
  | .num n => (parseFloat64 n).getD n.afterRange
  | _ => F64.zero

/-- The action of the members of a `rates` object on the map. -/
def setRates (l : List (String × F64)) (entries : List (String × JSON)) : List (String × F64) :=
  entries.foldl (fun l kv => mapSet kv.1 (rateValue kv.2) l) l

/-- The action of one top-level member on `Timestamp`. -/
def tsStep (t : Int) (kv : String × JSON) : Int :=
  match findField kv.1, kv.2 with
  | some .timestamp, .num n => (parseInt64 n).getD t
  | _, _ => t

/-- The action of one top-level member on `Base`. -/
def baseStep (b : String) (kv : String × JSON) : String :=
  match findField kv.1, kv.2 with
  | some .base, .str s => s
  | _, _ => b

/-- The action of one top-level member on `Rates`. -/
def ratesStep (r : Option (List (String × F64))) (kv : String × JSON) :
    Option (List (String × F64)) :=
  match findField kv.1, kv.2 with
  | some .rates, .null => none
  | some .rates, .obj entries => some (setRates (r.getD []) entries)
  | _, _ => r

/-- Whether a top-level member assigns `Base`. -/
def setsBase (kv : String × JSON) : Bool :=
  match findField kv.1, kv.2 with
  | some .base, .str _ => true
  | _, _ => false

/-- Whether a top-level member sets `Rates` to the nil map (`"rates": null`). -/
def clearsRates (kv : String × JSON) : Bool :=
  match findField kv.1, kv.2 with
  | some .rates, .null => true
  | _, _ => false

/-- What a JSON object says on its own: the store obtained by decoding it
through a nil pointer. -/
def docStore (kvs : List (String × JSON)) : RateStore :=
  ((unmarshal (.valid (.obj kvs)) none).1).getD RateStore.zero

/-! ## json.Marshal of the store -/

/-- The literal `json.Marshal` writes for an int64; it is in range as a float64,
so `afterRange` is never consulted. -/
def intLit (i : Int) : NumLit :=
  { int := some i, float := roundRat (decide (i < 0)) i.natAbs 1, afterRange := F64.zero }

/-- The literal `json.Marshal` writes for a finite float64: it parses back to
the same float64, and as an integer when it is written without fraction or
exponent; it is in range, so `afterRange` is never consulted. -/
def floatLit (x : F64) : NumLit :=
  { int := match x.toInt with
      | some i => if inInt64 i then some i else none
      | none => none,
    float := x,
    afterRange := F64.zero }

/-- The JSON text of the `Rates` map. -/
def ratesJSON (m : Option (List (String × F64))) : JSON :=
  match m with
  | none => .null
  | some l => .obj (l.map (fun kv => (kv.1, JSON.num (floatLit kv.2))))

/-- The JSON text of a store whose rates are all finite. -/
def storeJSON (s : RateStore) : JSON :=
  .obj [("timestamp", .num (intLit s.Timestamp)), ("base", .str s.Base),
        ("rates", ratesJSON s.Rates)]

/-- Go's `jsonBytes, err = json.Marshal(&rateStore)` for a non-nil store: an
infinite or NaN rate is an error, which leaves `jsonBytes` empty. -/
def marshal (s : RateStore) : Content :=
  if ratesFinite s.Rates then .valid (storeJSON s) else .invalid

/-! ## Process state and surroundings -/

/-- The package-level variables, the rates file, and what the process has done
so far. -/
structure World where
  /-- The `rateStore` pointer; `none` is nil. -/
  rateStore : Option RateStore
  /-- Whether `rateStoreMutex` is held. -/
  rateStoreMutex : Bool
  /-- Whether `refreshMutex` is held. -/
  refreshMutex : Bool
  /-- What `ioutil.ReadFile(ratesFile)` returns; `none` is an error. -/
  ratesFile : Option Content
  /-- Number of `http.Get(ratesURL)` calls issued. -/
  requests : Nat
  /-- Number of `ioutil.WriteFile(ratesFile, ...)` calls issued. -/
  writes : Nat
  /-- The errors printed after "can't get rates:". -/
  printed : List Error

/-- The outcome of `http.Get(ratesURL)` followed by `ioutil.ReadAll`. The
status code is part of the response; a non-2xx status is not an error of
`http.Get`. -/
inductive HttpResult
  | getError (err : String)
  | readError (status : Nat) (err : String)
  | body (status : Nat) (bytes : Content)

/-- The outcome of `ioutil.WriteFile`: on failure the file is left as the
failed write left it. -/
inductive WriteResult
  | ok
  | failed (err : String) (left : Option Content)

/-- What the surroundings decide during one call of `refreshCurrencyRates`. -/
structure Env where
  /-- The reading of `time.Now()` in `refreshCurrencyRates`. -/
  now : Time
  /-- The provider's answer, should a request be issued. -/
  http : HttpResult
  /-- The reading of `time.Now()` in `requestRates`. -/
  stamp : Time
  /-- The fate of the file write, should one be issued. -/
  write : WriteResult

/-- How a call ends: it returns, it panics (nil pointer dereference; nothing
recovers, the process dies), or it waits for a mutex that is held. -/
inductive Run (α : Type)
  | returned (w : World) (a : α)
  | panicked (w : World)
  | blocked (w : World)

/-- The state a call ends in. -/
def Run.world {α : Type} : Run α → World
  | .returned w _ => w
  | .panicked w => w
  | .blocked w => w

/-! ## The program -/

/-- Go's `convert(amount, base, to)`; `toCode` stands for the parameter `to`. -/
def convert (w : World) (amount : F64) (base toCode : String) : Run (F64 × Option Error) :=
  if w.rateStoreMutex then .blocked w else
  match w.rateStore with
  | none => .returned w (F64.zero, some (.text "currency rates required"))
  | some rateStore =>
    match mapGet rateStore.Rates base with
    | none => .returned w (F64.zero, some (.text "base value can't be found"))
    | some baseValue =>
      match mapGet rateStore.Rates toCode with
      | none => .returned w (F64.zero, some (.text "base value can't be found"))
      | some toValue =>
        let converted := (amount.mul toValue).div baseValue
        .returned w (converted, none)

/-- Go's `requestRates`. -/
def requestRates (env : Env) (w : World) : Run (Option Error) :=
  let w := { w with requests := w.requests + 1 }
  match env.http with
  | .getError err => .returned w (some (.net err))
  | .readError _ err => .returned w (some (.bodyRead err))
  | .body _ jsonBytes =>
    if w.rateStoreMutex then .blocked w else
    match unmarshal jsonBytes w.rateStore with
    | (p, some err) => .returned { w with rateStore := p, rateStoreMutex := false } (some err)
    | (none, none) => .panicked { w with rateStore := none, rateStoreMutex := true }
    | (some s, none) =>
      let s := { s with Timestamp := env.stamp.Unix }
      let jsonBytes := marshal s
      let w := { w with rateStore := some s, rateStoreMutex := false, writes := w.writes + 1 }
      match env.write with
      | .ok => .returned { w with ratesFile := some jsonBytes } none
      | .failed err left => .returned { w with ratesFile := left } (some (.file err))

/-- The three identical blocks `err = requestRates(); if err != nil { Println;
return }; return` of `refreshCurrencyRates`, followed by the deferred
`refreshMutex.Unlock()`, which also runs when `requestRates` panics. -/
def requestAndReport (env : Env) (w : World) : Run Unit :=
  match requestRates env w with
  | .returned w (some err) =>
      .returned { w with printed := w.printed ++ [err], refreshMutex := false } ()
  | .returned w none => .returned { w with refreshMutex := false } ()
  | .panicked w => .panicked { w with refreshMutex := false }
  | .blocked w => .blocked w

/-- Go's `refreshCurrencyRates`. -/
def refreshCurrencyRates (env : Env) (w : World) : Run Unit :=
  if w.refreshMutex then .blocked w else
  let w := { w with refreshMutex := true }
  match w.ratesFile with
  | none => requestAndReport env w
  | some rateBytes =>
    if w.rateStoreMutex then .blocked w else
    match unmarshal rateBytes w.rateStore with
    | (p, some _) => requestAndReport env { w with rateStore := p, rateStoreMutex := false }
    | (none, none) =>
      .panicked { w with rateStore := none, rateStoreMutex := true, refreshMutex := false }
    | (some s, none) =>
      let t := timeUnix s.Timestamp
      let w := { w with rateStore := some s, rateStoreMutex := false }
      if Hour < env.now.Sub t then requestAndReport env w
      else .returned { w with refreshMutex := false } ()

/-! ## Notions the statements below use -/

/-- The provider outcomes in which `requestRates` returns before it decodes
anything into the store: `http.Get` fails, reading the body fails, or the body
is not valid JSON. -/
def HttpResult.rejected : HttpResult → Bool
  | .getError _ => true
  | .readError _ _ => true
  | .body _ .invalid => true
  | .body _ (.valid _) => false

/-- The in-memory snapshot once `refreshCurrencyRates` has read and decoded the
rates file, that is, right before it fetches. -/
def loaded (w : World) : Option RateStore :=
  match w.ratesFile with
  | none => w.rateStore
  | some rateBytes => (unmarshal rateBytes w.rateStore).1

/-- A float64 as package strconv produces them: mantissa below `2^53`, exponent
in range, normalised unless subnormal. -/
def F64.canonical : F64 → Bool
  | .fin _ m e =>
      decide (m < 2 ^ 53) && decide (-1074 ≤ e) && decide (e ≤ 971) &&
        (decide (2 ^ 52 ≤ m) || decide (e = -1074))
  | _ => true

/-- The float64 `1`. -/
def F64.one : F64 := .fin false (2 ^ 52) (-52)

/-! ## Sample states -/

/-- A snapshot quoting AED at 3.67, USD at 1 and a currency XXX at 0. -/
def aedStore : RateStore :=
  { Timestamp := 1793570000, Base := "USD",
    Rates := some [("AED", F64.ofDec false 367 (-2)), ("USD", F64.one), ("XXX", F64.zero)] }

/-- A process holding `aedStore`, no rates file. -/
def aedWorld : World :=
  { rateStore := some aedStore, rateStoreMutex := false, refreshMutex := false,
    ratesFile := none, requests := 0, writes := 0, printed := [] }

/-- A process right after start: nil store, no rates file. -/
def coldWorld : World :=
  { rateStore := none, rateStoreMutex := false, refreshMutex := false,
    ratesFile := none, requests := 0, writes := 0, printed := [] }

/-- A clock reading on 2 November 2026, 00:00:00.5 UTC. -/
def nov2026 : Time := { sec := 1793577600 + 62135596800, nsec := 500000000 }

/-- The members of a provider document quoting EUR and USD. -/
def eurMembers : List (String × JSON) :=
  [("timestamp", .num (intLit 1793574000)), ("base", .str "USD"),
   ("rates", .obj [("EUR", .num (floatLit (F64.ofDec false 92 (-2)))),
                   ("USD", .num (floatLit F64.one))])]

/-- A provider document quoting EUR and USD. -/
def eurDoc : JSON := .obj eurMembers

/-- The store `eurDoc` decodes to through a pointer to `aedStore`, stamped on
`nov2026`. -/
def mergedStore : RateStore :=
  { Timestamp := 1793577600, Base := "USD",
    Rates := some [("AED", F64.ofDec false 367 (-2)), ("EUR", F64.ofDec false 92 (-2)),
                   ("USD", F64.one), ("XXX", F64.zero)] }

/-- The provider answers 200 with `eurDoc`; the file write succeeds. -/
def envOk : Env :=
  { now := nov2026, http := .body 200 (.valid eurDoc), stamp := nov2026, write := .ok }

/-- The provider answers 200 with `eurDoc`; the file write fails and leaves no
file. -/
def envWriteFails : Env :=
  { now := nov2026, http := .body 200 (.valid eurDoc), stamp := nov2026,
    write := .failed "no space left on device" none }

/-- The provider answers 401 with its JSON error document. -/
def env401 : Env :=
  { now := nov2026,
    http := .body 401 (.valid (.obj [("error", .bool true), ("status", .num (intLit 401)),
                                     ("message", .str "invalid_app_id")])),
    stamp := nov2026, write := .ok }

/-- The provider cannot be reached. -/
def envDown : Env :=
  { now := nov2026, http := .getError "dial tcp: i/o timeout", stamp := nov2026, write := .ok }

/-- The provider answers 200 with the JSON text `null`. -/
def envNull : Env :=
  { now := nov2026, http := .body 200 (.valid .null), stamp := nov2026, write := .ok }

/-- A process started over a rates file holding `aedStore`, which is stale on
`nov2026`. -/
def staleFileWorld : World := { coldWorld with ratesFile := some (marshal aedStore) }

/-- A rates file whose timestamp is the largest int64. -/
def farFutureFile : Content :=
  .valid (.obj [("timestamp", .num (intLit 9223372036854775807)), ("base", .str "USD"),
                ("rates", .obj [("USD", .num (floatLit F64.one))])])

/-- The store `farFutureFile` decodes to. -/
def farFutureStore : RateStore :=
  { Timestamp := 9223372036854775807, Base := "USD", Rates := some [("USD", F64.one)] }

/-- A process started over `farFutureFile`. -/
def farFutureWorld : World := { coldWorld with ratesFile := some farFutureFile }

/-- The snapshot `aedStore` taken ten minutes before `nov2026`. -/
def freshStore : RateStore := { aedStore with Timestamp := 1793577000 }

/-- A process started over a rates file holding `freshStore`. -/
def freshFileWorld : World := { coldWorld with ratesFile := some (marshal freshStore) }

/-- A process started over a rates file holding the JSON text `null`. -/
def nullFileWorld : World := { coldWorld with ratesFile := some (.valid .null) }

/-! # Theorems -/

set_option maxRecDepth 100000

/-! ### int64 and time -/

theorem wrap64_of_inRange (x : Int) (h1 : -(2 ^ 63) ≤ x) (h2 : x < 2 ^ 63) : wrap64 x = x := by
  unfold wrap64
  rw [Int.emod_eq_of_lt (by omega) (by omega)]
  omega

theorem sub_timeUnix_gt_hour_iff (now : Time) (ts : Int)
    (h1 : -(2 ^ 63) ≤ ts) (h2 : ts + unixToInternal < 2 ^ 63) :
    Hour < now.Sub (timeUnix ts) ↔ Hour < elapsed now ts := by
  have hw : wrap64 (ts + unixToInternal) = ts + unixToInternal :=
    wrap64_of_inRange _ (by unfold unixToInternal; omega) h2
  unfold Time.Sub timeUnix elapsed
  simp only [hw]
  unfold maxDuration minDuration Hour unixToInternal
  constructor
  · intro h
    split_ifs at h <;> omega
  · intro h
    split_ifs <;> omega

/-! ### the rates map -/

theorem assocGet_mapSet (k k' : String) (v : F64) (l : List (String × F64)) :
    assocGet k' (mapSet k v l) = if k' = k then some v else assocGet k' l := by
  induction l with
  | nil => simp [mapSet, assocGet]
  | cons hd tl ih =>
    obtain ⟨k0, v0⟩ := hd
    unfold mapSet
    by_cases h1 : k = k0
    · subst h1
      by_cases h2 : k' = k <;> simp [assocGet, h2]
    · by_cases h3 : keyLt k k0 = true
      · by_cases h2 : k' = k <;> simp [assocGet, h1, h2, h3]
      · simp only [h1, h3, if_false, assocGet, ih]
        by_cases h2 : k' = k
        · subst h2; simp [h1]
        · simp [h2]

theorem decodeRate_fst (acc : List (String × F64) × Option Error) (kv : String × JSON) :
    (decodeRate acc kv).1 = mapSet kv.1 (rateValue kv.2) acc.1 := by
  obtain ⟨k, v⟩ := kv
  cases v with
  | num n =>
    simp only [decodeRate, rateValue]
    cases parseFloat64 n <;> simp
  | _ => simp [decodeRate, rateValue]

theorem decodeRate_snd (l1 l2 : List (String × F64)) (e : Option Error) (kv : String × JSON) :
    (decodeRate (l1, e) kv).2 = (decodeRate (l2, e) kv).2 := by
  obtain ⟨k, v⟩ := kv
  cases v with
  | num n =>
    simp only [decodeRate]
    cases parseFloat64 n <;> simp
  | _ => simp [decodeRate]

theorem foldl_decodeRate_fst (entries : List (String × JSON))
    (acc : List (String × F64) × Option Error) :
    (entries.foldl decodeRate acc).1 = setRates acc.1 entries := by
  induction entries generalizing acc with
  | nil => simp [setRates]
  | cons kv tl ih =>
    simp only [List.foldl_cons, ih, decodeRate_fst, setRates]

theorem foldl_decodeRate_snd (entries : List (String × JSON)) (l1 l2 : List (String × F64))
    (e : Option Error) :
    (entries.foldl decodeRate (l1, e)).2 = (entries.foldl decodeRate (l2, e)).2 := by
  induction entries generalizing l1 l2 e with
  | nil => simp
  | cons kv tl ih =>
    simp only [List.foldl_cons]
    have h := decodeRate_snd l1 l2 e kv
    have e1 : decodeRate (l1, e) kv = ((decodeRate (l1, e) kv).1, (decodeRate (l1, e) kv).2) := rfl
    have e2 : decodeRate (l2, e) kv = ((decodeRate (l2, e) kv).1, (decodeRate (l2, e) kv).2) := rfl
    rw [e1, e2, h]
    exact ih _ _ _

theorem decodeMember_store (d : Dec) (kv : String × JSON) :
    (decodeMember d kv).store =
      { Timestamp := tsStep d.store.Timestamp kv, Base := baseStep d.store.Base kv,
        Rates := ratesStep d.store.Rates kv } := by
  obtain ⟨k, v⟩ := kv
  unfold decodeMember tsStep baseStep ratesStep
  cases hf : findField k with
  | none => simp
  | some f =>
    cases f <;> cases v <;>
      simp [decodeTimestamp, decodeBase, decodeRates, Dec.saveError, foldl_decodeRate_fst]
    all_goals first
      | (cases d.savedError <;> rfl)
      | (rename_i n; cases parseInt64 n <;> simp; cases d.savedError <;> rfl)

theorem decodeMember_savedError (s1 s2 : RateStore) (e : Option Error) (kv : String × JSON) :
    (decodeMember { store := s1, savedError := e } kv).savedError =
      (decodeMember { store := s2, savedError := e } kv).savedError := by
  obtain ⟨k, v⟩ := kv
  unfold decodeMember
  cases hf : findField k with
  | none => simp
  | some f =>
    cases f <;> cases v <;>
      simp [decodeTimestamp, decodeBase, decodeRates, Dec.saveError]
    all_goals first
      | (cases e <;> rfl)
      | (rename_i n; cases parseInt64 n <;> simp; cases e <;> rfl)
      | exact foldl_decodeRate_snd _ _ _ _

theorem foldl_decodeMember_store (kvs : List (String × JSON)) (d : Dec) :
    (kvs.foldl decodeMember d).store =
      { Timestamp := kvs.foldl tsStep d.store.Timestamp,
        Base := kvs.foldl baseStep d.store.Base,
        Rates := kvs.foldl ratesStep d.store.Rates } := by
  induction kvs generalizing d with
  | nil => simp
  | cons kv tl ih => simp only [List.foldl_cons, ih, decodeMember_store]

theorem foldl_decodeMember_savedError (kvs : List (String × JSON)) (s1 s2 : RateStore)
    (e : Option Error) :
    (kvs.foldl decodeMember { store := s1, savedError := e }).savedError =
      (kvs.foldl decodeMember { store := s2, savedError := e }).savedError := by
  induction kvs generalizing s1 s2 e with
  | nil => simp
  | cons kv tl ih =>
    simp only [List.foldl_cons]
    have h := decodeMember_savedError s1 s2 e kv
    have e1 : decodeMember { store := s1, savedError := e } kv =
        { store := (decodeMember { store := s1, savedError := e } kv).store,
          savedError := (decodeMember { store := s1, savedError := e } kv).savedError } := rfl
    have e2 : decodeMember { store := s2, savedError := e } kv =
        { store := (decodeMember { store := s2, savedError := e } kv).store,
          savedError := (decodeMember { store := s2, savedError := e } kv).savedError } := rfl
    rw [e1, e2, h]
    exact ih _ _ _

/-- What `unmarshal` makes of an object, field by field. -/
theorem unmarshal_obj (kvs : List (String × JSON)) (p : Option RateStore) :
    unmarshal (.valid (.obj kvs)) p =
      (some { Timestamp := kvs.foldl tsStep (p.getD RateStore.zero).Timestamp,
              Base := kvs.foldl baseStep (p.getD RateStore.zero).Base,
              Rates := kvs.foldl ratesStep (p.getD RateStore.zero).Rates },
       (kvs.foldl decodeMember { store := RateStore.zero, savedError := none }).savedError) := by
  simp only [unmarshal, foldl_decodeMember_store]
  rw [foldl_decodeMember_savedError kvs (p.getD RateStore.zero) RateStore.zero none]

/-! ### Timestamp -/

theorem baseStep_of_setsBase (kv : String × JSON) (h : setsBase kv = true) (b1 b2 : String) :
    baseStep b1 kv = baseStep b2 kv := by
  obtain ⟨k, v⟩ := kv
  unfold setsBase at h
  unfold baseStep
  cases hf : findField k with
  | none => simp [hf] at h
  | some f => cases f <;> cases v <;> simp_all

theorem baseStep_of_not_setsBase (kv : String × JSON) (h : setsBase kv = false) (b : String) :
    baseStep b kv = b := by
  obtain ⟨k, v⟩ := kv
  unfold setsBase at h
  unfold baseStep
  cases hf : findField k with
  | none => simp
  | some f => cases f <;> cases v <;> simp_all

theorem foldl_baseStep_of_any (kvs : List (String × JSON)) (h : kvs.any setsBase = true)
    (b1 b2 : String) : kvs.foldl baseStep b1 = kvs.foldl baseStep b2 := by
  induction kvs generalizing b1 b2 with
  | nil => simp at h
  | cons kv tl ih =>
    simp only [List.foldl_cons]
    cases hkv : setsBase kv with
    | true => rw [baseStep_of_setsBase kv hkv b1 b2]
    | false =>
      rw [baseStep_of_not_setsBase kv hkv, baseStep_of_not_setsBase kv hkv]
      apply ih
      simpa [hkv] using h

theorem foldl_baseStep_of_not_any (kvs : List (String × JSON)) (h : kvs.any setsBase = false)
    (b : String) : kvs.foldl baseStep b = b := by
  induction kvs generalizing b with
  | nil => simp
  | cons kv tl ih =>
    simp only [List.any_cons, Bool.or_eq_false_iff] at h
    simp only [List.foldl_cons, baseStep_of_not_setsBase kv h.1, ih h.2]

/-! ### Rates -/

theorem mapGet_eq_assocGet (r : Option (List (String × F64))) (k : String) :
    mapGet r k = assocGet k (r.getD []) := by
  cases r <;> simp [mapGet, assocGet]

theorem assocGet_setRates_agree (entries : List (String × JSON)) (l1 l2 : List (String × F64))
    (h : ∀ k v, assocGet k l2 = some v → assocGet k l1 = some v) :
    ∀ k v, assocGet k (setRates l2 entries) = some v → assocGet k (setRates l1 entries) = some v := by
  induction entries generalizing l1 l2 with
  | nil => simpa [setRates] using h
  | cons kv tl ih =>
    simp only [setRates, List.foldl_cons]
    apply ih
    intro k v
    rw [assocGet_mapSet, assocGet_mapSet]
    by_cases hk : k = kv.1
    · simp [hk]
    · simpa [hk] using h k v

theorem assocGet_setRates_overlay (entries : List (String × JSON)) (l1 l2 : List (String × F64))
    (f : String → Option F64)
    (h : ∀ k, assocGet k l1 = (assocGet k l2).orElse (fun _ => f k)) :
    ∀ k, assocGet k (setRates l1 entries) = (assocGet k (setRates l2 entries)).orElse (fun _ => f k) := by
  induction entries generalizing l1 l2 with
  | nil => simpa [setRates] using h
  | cons kv tl ih =>
    simp only [setRates, List.foldl_cons]
    apply ih
    intro k
    rw [assocGet_mapSet, assocGet_mapSet]
    by_cases hk : k = kv.1
    · simp [hk]
    · simpa [hk] using h k

theorem mapGet_ratesStep_agree (kv : String × JSON) (r1 r2 : Option (List (String × F64)))
    (h : ∀ k v, mapGet r2 k = some v → mapGet r1 k = some v) :
    ∀ k v, mapGet (ratesStep r2 kv) k = some v → mapGet (ratesStep r1 kv) k = some v := by
  obtain ⟨key, val⟩ := kv
  unfold ratesStep
  cases hf : findField key with
  | none => simpa using h
  | some f =>
    cases f <;> cases val <;> try (first | (simp; done) | simpa using h)
    · simp only [mapGet]
      apply assocGet_setRates_agree
      intro k v
      rw [← mapGet_eq_assocGet, ← mapGet_eq_assocGet]
      exact h k v

theorem mapGet_foldl_ratesStep_agree (kvs : List (String × JSON))
    (r1 r2 : Option (List (String × F64)))
    (h : ∀ k v, mapGet r2 k = some v → mapGet r1 k = some v) :
    ∀ k v, mapGet (kvs.foldl ratesStep r2) k = some v →
      mapGet (kvs.foldl ratesStep r1) k = some v := by
  induction kvs generalizing r1 r2 with
  | nil => simpa using h
  | cons kv tl ih =>
    simp only [List.foldl_cons]
    exact ih _ _ (mapGet_ratesStep_agree kv r1 r2 h)

theorem mapGet_ratesStep_overlay (kv : String × JSON) (hc : clearsRates kv = false)
    (r1 r2 : Option (List (String × F64))) (f : String → Option F64)
    (h : ∀ k, mapGet r1 k = (mapGet r2 k).orElse (fun _ => f k)) :
    ∀ k, mapGet (ratesStep r1 kv) k = (mapGet (ratesStep r2 kv) k).orElse (fun _ => f k) := by
  obtain ⟨key, val⟩ := kv
  unfold clearsRates at hc
  unfold ratesStep
  cases hf : findField key with
  | none => simpa using h
  | some fld =>
    cases fld <;> cases val <;> try (simpa using h)
    · simp [hf] at hc
    · simp only [mapGet]
      apply assocGet_setRates_overlay
      intro k
      rw [← mapGet_eq_assocGet, ← mapGet_eq_assocGet]
      exact h k

theorem mapGet_foldl_ratesStep_overlay (kvs : List (String × JSON))
    (hc : kvs.any clearsRates = false)
    (r1 r2 : Option (List (String × F64))) (f : String → Option F64)
    (h : ∀ k, mapGet r1 k = (mapGet r2 k).orElse (fun _ => f k)) :
    ∀ k, mapGet (kvs.foldl ratesStep r1) k =
      (mapGet (kvs.foldl ratesStep r2) k).orElse (fun _ => f k) := by
  induction kvs generalizing r1 r2 with
  | nil => simpa using h
  | cons kv tl ih =>
    simp only [List.any_cons, Bool.or_eq_false_iff] at hc
    simp only [List.foldl_cons]
    exact ih hc.2 _ _ (mapGet_ratesStep_overlay kv hc.1 r1 r2 f h)

theorem requestAndReport_requests (env : Env) (w : World) :
    (requestAndReport env w).world.requests = w.requests + 1 := by
  unfold requestAndReport requestRates
  cases hh : env.http with
  | getError e => simp [Run.world]
  | readError st e => simp [Run.world]
  | body st b =>
    simp only
    cases hl : w.rateStoreMutex with
    | true => simp [Run.world]
    | false =>
      simp only [Bool.false_eq_true, if_false]
      rcases hu : unmarshal b w.rateStore with ⟨_ | s, _ | err⟩ <;>
        cases hw : env.write <;> simp [Run.world]

/-- A rejected provider answer: the store, the file and the write count stay as
they are, one error is printed, `refreshMutex` is released. -/
theorem requestAndReport_rejected (env : Env) (w : World) (hl : w.rateStoreMutex = false)
    (hrej : env.http.rejected = true) :
    ∃ err, requestAndReport env w =
      .returned { w with requests := w.requests + 1, printed := w.printed ++ [err],
                         refreshMutex := false } () := by
  unfold requestAndReport requestRates
  cases hh : env.http with
  | getError e => exact ⟨.net e, by simp⟩
  | readError st e => exact ⟨.bodyRead e, by simp⟩
  | body st b =>
    cases b with
    | valid j => simp [hh, HttpResult.rejected] at hrej
    | invalid =>
      refine ⟨.jsonInvalid, ?_⟩
      simp only [hl, Bool.false_eq_true, if_false, unmarshal]

theorem refresh_unlocked (env : Env) (w : World) (hr : w.refreshMutex = false)
    (hl : w.rateStoreMutex = false) :
    refreshCurrencyRates env w =
      match w.ratesFile with
      | none => requestAndReport env { w with refreshMutex := true }
      | some rateBytes =>
        match unmarshal rateBytes w.rateStore with
        | (p, some _) => requestAndReport env { w with refreshMutex := true, rateStore := p }
        | (none, none) => .panicked { w with rateStore := none, rateStoreMutex := true }
        | (some s, none) =>
          if Hour < env.now.Sub (timeUnix s.Timestamp) then
            requestAndReport env { w with refreshMutex := true, rateStore := some s }
          else .returned { w with rateStore := some s } () := by
  unfold refreshCurrencyRates
  simp only [hr, hl, Bool.false_eq_true, if_false]

theorem ratesFile_cases (w : World) :
    w.ratesFile = none ∨ ∃ bytes, w.ratesFile = some bytes := by
  cases w.ratesFile <;> simp

theorem unmarshal_cases (bytes : Content) (p : Option RateStore) :
    (∃ q err, unmarshal bytes p = (q, some err)) ∨ unmarshal bytes p = (none, none) ∨
      ∃ s, unmarshal bytes p = (some s, none) := by
  rcases unmarshal bytes p with ⟨_ | s, _ | err⟩ <;> simp

theorem refresh_noFile (env : Env) (w : World) (hr : w.refreshMutex = false)
    (hf : w.ratesFile = none) :
    refreshCurrencyRates env w = requestAndReport env { w with refreshMutex := true } := by
  unfold refreshCurrencyRates
  simp only [hr, hf, Bool.false_eq_true, if_false]

theorem refresh_badFile (env : Env) (w : World) (hr : w.refreshMutex = false)
    (hl : w.rateStoreMutex = false) (bytes : Content) (hf : w.ratesFile = some bytes)
    (p : Option RateStore) (err : Error) (hu : unmarshal bytes w.rateStore = (p, some err)) :
    refreshCurrencyRates env w =
      requestAndReport env { w with refreshMutex := true, rateStore := p } := by
  rw [refresh_unlocked env w hr hl]
  simp only [hf, hu]

theorem refresh_nullFile (env : Env) (w : World) (hr : w.refreshMutex = false)
    (hl : w.rateStoreMutex = false) (bytes : Content) (hf : w.ratesFile = some bytes)
    (hu : unmarshal bytes w.rateStore = (none, none)) :
    refreshCurrencyRates env w =
      .panicked { w with rateStore := none, rateStoreMutex := true } := by
  rw [refresh_unlocked env w hr hl]
  simp only [hf, hu]

theorem refresh_goodFile (env : Env) (w : World) (hr : w.refreshMutex = false)
    (hl : w.rateStoreMutex = false) (bytes : Content) (hf : w.ratesFile = some bytes)
    (s : RateStore) (hu : unmarshal bytes w.rateStore = (some s, none)) :
    refreshCurrencyRates env w =
      if Hour < env.now.Sub (timeUnix s.Timestamp) then
        requestAndReport env { w with refreshMutex := true, rateStore := some s }
      else .returned { w with rateStore := some s } () := by
  rw [refresh_unlocked env w hr hl]
  simp only [hf, hu]

theorem convert_unlocked (w : World) (amount : F64) (a b : String)
    (hlock : w.rateStoreMutex = false) :
    convert w amount a b =
      match w.rateStore with
      | none => .returned w (F64.zero, some (.text "currency rates required"))
      | some s =>
        match mapGet s.Rates a, mapGet s.Rates b with
        | some ra, some rb => .returned w ((amount.mul rb).div ra, none)
        | _, _ => .returned w (F64.zero, some (.text "base value can't be found")) := by
  unfold convert
  simp only [hlock]
  cases w.rateStore with
  | none => simp
  | some s =>
    simp only
    cases mapGet s.Rates a <;> cases mapGet s.Rates b <;> simp

theorem div_zero_isInfOrNaN (x z : F64) (hz : z.isZero = true) : (x.div z).isInfOrNaN = true := by
  cases z with
  | nan => simp [F64.isZero] at hz
  | inf s => simp [F64.isZero] at hz
  | fin t n f =>
    simp [F64.isZero] at hz
    subst hz
    cases x with
    | nan => simp [F64.div, F64.isInfOrNaN]
    | inf s => simp [F64.div, F64.isInfOrNaN]
    | fin s m e =>
      by_cases hm : m = 0 <;> simp [F64.div, F64.isInfOrNaN, hm]

theorem docStore_eq (kvs : List (String × JSON)) :
    docStore kvs =
      { Timestamp := kvs.foldl tsStep 0, Base := kvs.foldl baseStep "",
        Rates := kvs.foldl ratesStep none } := by
  unfold docStore
  rw [unmarshal_obj]
  rfl

/-- Decoding an object into an existing store: what the object says wins, what
it does not mention stays. -/
theorem unmarshal_overlay (P s : RateStore) (kvs : List (String × JSON)) (e : Option Error)
    (hu : unmarshal (.valid (.obj kvs)) (some P) = (some s, e)) :
    (∀ k v, mapGet (docStore kvs).Rates k = some v → mapGet s.Rates k = some v) ∧
    (kvs.any setsBase = true → s.Base = (docStore kvs).Base) ∧
    (kvs.any setsBase = false → s.Base = P.Base) ∧
    (kvs.any clearsRates = false → ∀ k, mapGet (docStore kvs).Rates k = none →
      mapGet s.Rates k = mapGet P.Rates k) := by
  rw [unmarshal_obj] at hu
  simp only [Prod.mk.injEq, Option.some.injEq, Option.getD_some] at hu
  obtain ⟨hs, -⟩ := hu
  subst hs
  rw [docStore_eq]
  refine ⟨?_, ?_, ?_, ?_⟩
  · exact mapGet_foldl_ratesStep_agree kvs P.Rates none (by simp [mapGet])
  · intro h
    exact foldl_baseStep_of_any kvs h _ _
  · intro h
    exact foldl_baseStep_of_not_any kvs h _
  · intro h k hk
    have := mapGet_foldl_ratesStep_overlay kvs h P.Rates none (fun k => mapGet P.Rates k)
      (by intro k; simp [mapGet]) k
    simp only at hk
    rw [this, hk]
    rfl

/-! ### Exactness of rounding -/

theorem bitLenAux_zero (fuel : Nat) : bitLenAux fuel 0 = 0 := by
  cases fuel <;> simp [bitLenAux]

theorem bitLenAux_spec (fuel n : Nat) (h : n ≤ fuel) :
    n < 2 ^ bitLenAux fuel n ∧ (0 < n → 2 ^ (bitLenAux fuel n - 1) ≤ n) := by
  induction fuel generalizing n with
  | zero =>
    have : n = 0 := by omega
    subst this
    simp [bitLenAux]
  | succ fuel ih =>
    by_cases hn : n = 0
    · subst hn; simp [bitLenAux]
    · simp only [bitLenAux, hn, if_false]
      obtain ⟨h1, h2⟩ := ih (n / 2) (by omega)
      constructor
      · rw [pow_succ]; omega
      · intro _
        simp only [Nat.add_sub_cancel]
        by_cases h0 : n / 2 = 0
        · rw [h0, bitLenAux_zero]; simp; omega
        · have h3 := h2 (by omega)
          have hb : 0 < bitLenAux fuel (n / 2) := by
            by_contra hc
            have : bitLenAux fuel (n / 2) = 0 := by omega
            rw [this] at h1
            simp at h1
            exact h0 h1
          have : 2 ^ bitLenAux fuel (n / 2) = 2 * 2 ^ (bitLenAux fuel (n / 2) - 1) := by
            rw [← pow_succ']
            congr 1
            omega
          omega

theorem bitLen_lt (n : Nat) : n < 2 ^ bitLen n := (bitLenAux_spec n n le_rfl).1

theorem bitLen_le (n : Nat) (h : 0 < n) : 2 ^ (bitLen n - 1) ≤ n :=
  (bitLenAux_spec n n le_rfl).2 h

theorem bitLen_pos (n : Nat) (h : 0 < n) : 0 < bitLen n := by
  by_contra hc
  have h0 : bitLen n = 0 := by omega
  have := bitLen_lt n
  rw [h0] at this
  simp at this
  omega

theorem two_zpow_eq (g : Int) : (2 : ℚ) ^ g = (2 : ℚ) ^ g.toNat / (2 : ℚ) ^ (-g).toNat := by
  rcases le_total 0 g with h | h
  · have h1 : (-g).toNat = 0 := by omega
    have h2 : (g.toNat : Int) = g := Int.toNat_of_nonneg h
    rw [h1, pow_zero, div_one, ← zpow_natCast, h2]
  · have h1 : g.toNat = 0 := by omega
    have h2 : ((-g).toNat : Int) = -g := Int.toNat_of_nonneg (by omega)
    rw [h1, pow_zero, one_div, ← zpow_natCast, h2, zpow_neg, inv_inv]

/-- The test of `floorLog2` and of `roundRat`, read in the rationals. -/
theorem scaled_le_iff (n d : Nat) (hd : 0 < d) (g : Int) :
    d * 2 ^ g.toNat ≤ n * 2 ^ (-g).toNat ↔ (2 : ℚ) ^ g ≤ (n : ℚ) / d := by
  have hd' : (0 : ℚ) < d := by exact_mod_cast hd
  have hp : (0 : ℚ) < (2 : ℚ) ^ (-g).toNat := by positivity
  rw [two_zpow_eq, div_le_div_iff₀ hp hd']
  constructor
  · intro h
    have : ((d * 2 ^ g.toNat : Nat) : ℚ) ≤ ((n * 2 ^ (-g).toNat : Nat) : ℚ) := by exact_mod_cast h
    push_cast at this
    linarith
  · intro h
    have : ((d * 2 ^ g.toNat : Nat) : ℚ) ≤ ((n * 2 ^ (-g).toNat : Nat) : ℚ) := by
      push_cast
      linarith
    exact_mod_cast this

theorem floorLog2_spec (n d : Nat) (hn : 0 < n) (hd : 0 < d) :
    (2 : ℚ) ^ floorLog2 n d ≤ (n : ℚ) / d ∧ (n : ℚ) / d < (2 : ℚ) ^ (floorLog2 n d + 1) := by
  have hd' : (0 : ℚ) < d := by exact_mod_cast hd
  have hn' : (0 : ℚ) < n := by exact_mod_cast hn
  have bn1 : ((2 : ℚ) ^ ((bitLen n : Int) - 1)) ≤ n := by
    have := bitLen_le n hn
    have hp := bitLen_pos n hn
    have e : ((bitLen n : Int) - 1) = ((bitLen n - 1 : Nat) : Int) := by omega
    rw [e, zpow_natCast]
    exact_mod_cast this
  have bn2 : (n : ℚ) < (2 : ℚ) ^ (bitLen n : Int) := by
    rw [zpow_natCast]; exact_mod_cast bitLen_lt n
  have bd1 : ((2 : ℚ) ^ ((bitLen d : Int) - 1)) ≤ d := by
    have := bitLen_le d hd
    have hp := bitLen_pos d hd
    have e : ((bitLen d : Int) - 1) = ((bitLen d - 1 : Nat) : Int) := by omega
    rw [e, zpow_natCast]
    exact_mod_cast this
  have bd2 : (d : ℚ) < (2 : ℚ) ^ (bitLen d : Int) := by
    rw [zpow_natCast]; exact_mod_cast bitLen_lt d
  have two_ne : (2 : ℚ) ≠ 0 := by norm_num
  -- n / d < 2 ^ (g + 1) and 2 ^ (g - 1) < n / d
  have hup : (n : ℚ) / d < (2 : ℚ) ^ ((bitLen n : Int) - (bitLen d : Int) + 1) := by
    have e : ((bitLen n : Int) - (bitLen d : Int) + 1) = (bitLen n : Int) - ((bitLen d : Int) - 1) := by
      ring
    rw [e, zpow_sub₀ two_ne, div_lt_div_iff₀ hd' (by positivity)]
    calc (n : ℚ) * 2 ^ ((bitLen d : Int) - 1) ≤ n * d := by
          apply mul_le_mul_of_nonneg_left bd1 hn'.le
      _ < 2 ^ (bitLen n : Int) * d := by
          apply mul_lt_mul_of_pos_right bn2 hd'
  have hlow : (2 : ℚ) ^ ((bitLen n : Int) - (bitLen d : Int) - 1) < (n : ℚ) / d := by
    have e : ((bitLen n : Int) - (bitLen d : Int) - 1) = ((bitLen n : Int) - 1) - (bitLen d : Int) := by
      ring
    rw [e, zpow_sub₀ two_ne, div_lt_div_iff₀ (by positivity) hd']
    calc (2 : ℚ) ^ ((bitLen n : Int) - 1) * d < 2 ^ ((bitLen n : Int) - 1) * 2 ^ (bitLen d : Int) := by
          apply mul_lt_mul_of_pos_left bd2 (by positivity)
      _ ≤ n * 2 ^ (bitLen d : Int) := by
          apply mul_le_mul_of_nonneg_right bn1 (by positivity)
  unfold floorLog2
  simp only
  by_cases hc : d * 2 ^ ((bitLen n : Int) - (bitLen d : Int)).toNat ≤
      n * 2 ^ (-((bitLen n : Int) - (bitLen d : Int))).toNat
  · simp only [hc, if_true]
    exact ⟨(scaled_le_iff n d hd _).mp hc, hup⟩
  · simp only [hc, if_false]
    refine ⟨hlow.le, ?_⟩
    have := (scaled_le_iff n d hd _).not.mp hc
    simpa using this

theorem floorLog2_unique (r : ℚ) (a b : Int) (ha1 : (2 : ℚ) ^ a ≤ r) (ha2 : r < (2 : ℚ) ^ (a + 1))
    (hb1 : (2 : ℚ) ^ b ≤ r) (hb2 : r < (2 : ℚ) ^ (b + 1)) : a = b := by
  have h1 : (2 : ℚ) ^ a < (2 : ℚ) ^ (b + 1) := lt_of_le_of_lt ha1 hb2
  have h2 : (2 : ℚ) ^ b < (2 : ℚ) ^ (a + 1) := lt_of_le_of_lt hb1 ha2
  rw [zpow_lt_zpow_iff_right₀ (by norm_num)] at h1 h2
  omega

/-- Rounding a rational that is a float64 returns that float64. -/
theorem roundRat_exact (neg : Bool) (n d m : Nat) (e : Int) (hd : 0 < d)
    (hm1 : m < 2 ^ 53) (he1 : -1074 ≤ e) (he2 : e ≤ 971) (hnorm : 2 ^ 52 ≤ m ∨ e = -1074)
    (hex : n * 2 ^ (-e).toNat = m * (d * 2 ^ e.toNat)) :
    roundRat neg n d = .fin neg m e := by
  have hden : 0 < d * 2 ^ e.toNat := by positivity
  by_cases hm0 : m = 0
  · subst hm0
    have hn0 : n = 0 := by
      simp only [zero_mul, mul_eq_zero] at hex
      rcases hex with h | h
      · exact h
      · exact absurd h (by positivity)
    have he : e = -1074 := by
      rcases hnorm with h | h
      · simp at h
      · exact h
    simp [roundRat, hn0, he]
  · have hmpos : 0 < m := Nat.pos_of_ne_zero hm0
    have hn0 : n ≠ 0 := by
      intro h
      rw [h, zero_mul] at hex
      have : 0 < m * (d * 2 ^ e.toNat) := by positivity
      omega
    have hnpos : 0 < n := Nat.pos_of_ne_zero hn0
    have hd' : (0 : ℚ) < d := by exact_mod_cast hd
    -- the rational value
    have hr : (n : ℚ) / d = m * (2 : ℚ) ^ e := by
      have hq : ((n * 2 ^ (-e).toNat : Nat) : ℚ) = ((m * (d * 2 ^ e.toNat) : Nat) : ℚ) := by
        rw [hex]
      push_cast at hq
      rw [two_zpow_eq, div_eq_iff hd'.ne']
      have hp : (0 : ℚ) < (2 : ℚ) ^ (-e).toNat := by positivity
      field_simp
      linarith
    have hb1 : (2 : ℚ) ^ ((bitLen m : Int) - 1) ≤ m := by
      have := bitLen_le m hmpos
      have hp := bitLen_pos m hmpos
      have e1 : ((bitLen m : Int) - 1) = ((bitLen m - 1 : Nat) : Int) := by omega
      rw [e1, zpow_natCast]
      exact_mod_cast this
    have hb2 : (m : ℚ) < (2 : ℚ) ^ (bitLen m : Int) := by
      rw [zpow_natCast]; exact_mod_cast bitLen_lt m
    have two_ne : (2 : ℚ) ≠ 0 := by norm_num
    have hfl : floorLog2 n d = (bitLen m : Int) - 1 + e := by
      obtain ⟨s1, s2⟩ := floorLog2_spec n d hnpos hd
      apply floorLog2_unique ((n : ℚ) / d) _ _ s1 s2
      · rw [hr, zpow_add₀ two_ne]
        exact mul_le_mul_of_nonneg_right hb1 (by positivity)
      · rw [hr]
        have e2 : (bitLen m : Int) - 1 + e + 1 = (bitLen m : Int) + e := by ring
        rw [e2, zpow_add₀ two_ne]
        exact mul_lt_mul_of_pos_right hb2 (by positivity)
    have hble : bitLen m ≤ 53 := by
      have h1 := bitLen_le m hmpos
      have h2 : 2 ^ (bitLen m - 1) < 2 ^ 53 := lt_of_le_of_lt h1 hm1
      have := (Nat.pow_lt_pow_iff_right (by norm_num : 1 < 2)).mp h2
      omega
    have key : max (floorLog2 n d - 52) (-1074) = e := by
      rw [hfl]
      rcases hnorm with h | h
      · have h2 : 2 ^ 52 < 2 ^ bitLen m := lt_of_le_of_lt h (bitLen_lt m)
        have := (Nat.pow_lt_pow_iff_right (by norm_num : 1 < 2)).mp h2
        have hb : (bitLen m : Int) = 53 := by omega
        rw [hb]
        omega
      · have hp := bitLen_pos m hmpos
        rw [max_eq_right (by omega)]
        exact h.symm
    have hm53 : m ≠ 2 ^ 53 := by omega
    have hq : m * (d * 2 ^ e.toNat) / (d * 2 ^ e.toNat) = m := Nat.mul_div_cancel _ hden
    have hrem : m * (d * 2 ^ e.toNat) % (d * 2 ^ e.toNat) = 0 := Nat.mul_mod_left _ _
    unfold roundRat
    simp only [hn0, if_false, key, hex, hq, hrem, mul_zero, not_lt_zero', false_or]
    have h0 : ¬ (0 = d * 2 ^ e.toNat ∧ m % 2 = 1) := by
      intro h; omega
    simp only [h0, if_false, hm53, not_lt.mpr he2]

/-- Multiplying and dividing by the float64 `1` is exact. -/
theorem mul_one_div_one (x : F64) (hx : x.canonical = true) :
    (x.mul F64.one).div F64.one = x := by
  cases x with
  | nan => rfl
  | inf s => simp [F64.mul, F64.div, F64.one]
  | fin s m e =>
    simp only [F64.canonical, Bool.and_eq_true, Bool.or_eq_true, decide_eq_true_eq] at hx
    obtain ⟨⟨⟨hm1, he1⟩, he2⟩, hnorm⟩ := hx
    have hmul : (F64.fin s m e).mul F64.one = F64.fin s m e := by
      simp only [F64.mul, F64.one, Bool.xor_false]
      apply roundRat_exact s _ _ m e (by positivity) hm1 he1 he2 hnorm
      have : 52 + (e + -52).toNat + (-e).toNat = (-(e + -52)).toNat + e.toNat := by omega
      calc m * 2 ^ 52 * 2 ^ (e + -52).toNat * 2 ^ (-e).toNat
          = m * 2 ^ (52 + (e + -52).toNat + (-e).toNat) := by ring
        _ = m * 2 ^ ((-(e + -52)).toNat + e.toNat) := by rw [this]
        _ = m * (2 ^ (-(e + -52)).toNat * 2 ^ e.toNat) := by rw [pow_add]
    have hdiv : (F64.fin s m e).div F64.one = F64.fin s m e := by
      simp only [F64.div, F64.one, Bool.xor_false]
      rw [if_neg (by norm_num)]
      apply roundRat_exact s _ _ m e (by positivity) hm1 he1 he2 hnorm
      have : (e - -52).toNat + (-e).toNat = 52 + (-(e - -52)).toNat + e.toNat := by omega
      calc m * 2 ^ (e - -52).toNat * 2 ^ (-e).toNat
          = m * 2 ^ ((e - -52).toNat + (-e).toNat) := by ring
        _ = m * 2 ^ (52 + (-(e - -52)).toNat + e.toNat) := by rw [this]
        _ = m * (2 ^ 52 * 2 ^ (-(e - -52)).toNat * 2 ^ e.toNat) := by
            ring
    rw [hmul, hdiv]

/-! # The claims -/

/-! ## C1: the conversion formula -/

/-- C1, counterexample: with AED quoted at 3.67 (a positive rate),
`convert(10, "AED", "AED")` succeeds but returns 10.000000000000002
(`5629499534213121 * 2^-49`), not 10: the product `10 * 3.67` is rounded, and
so is the quotient. -/
theorem C1_counterexample :
    mapGet aedStore.Rates "AED" = some (F64.ofDec false 367 (-2)) ∧
    (F64.ofDec false 367 (-2)).isPos = true ∧
    convert aedWorld (F64.ofDec false 10 0) "AED" "AED"
      = .returned aedWorld (F64.fin false 5629499534213121 (-49), none) ∧
    F64.fin false 5629499534213121 (-49) ≠ F64.ofDec false 10 0 := by
  refine ⟨by decide, by decide, by rfl, by decide⟩

/-- C1 (amended): when `rateStoreMutex` is free and the snapshot has
`rates[a] = ra` and `rates[b] = rb`, `convert(amount, a, b)` succeeds and
returns the float64 `(amount * rb) / ra`, product and quotient each rounded to
nearest; `convert(amount, a, a)` returns `(amount * ra) / ra`; and when `ra` is
the float64 `1` that result is exactly `amount`. -/
theorem C1_convert_formula (w : World) (s : RateStore) (amount ra rb : F64) (a b : String)
    (hlock : w.rateStoreMutex = false) (hs : w.rateStore = some s)
    (ha : mapGet s.Rates a = some ra) (hb : mapGet s.Rates b = some rb) :
    convert w amount a b = .returned w ((amount.mul rb).div ra, none) ∧
    convert w amount a a = .returned w ((amount.mul ra).div ra, none) ∧
    (ra = F64.one → amount.canonical = true →
      convert w amount a a = .returned w (amount, none)) := by
  rw [convert_unlocked w amount a b hlock, convert_unlocked w amount a a hlock, hs]
  refine ⟨by simp [ha, hb], by simp [ha], ?_⟩
  intro h1 hc
  subst h1
  simp [ha, mul_one_div_one amount hc]

/-- C1, witness: `C1_convert_formula` on `aedWorld`, from USD (rate 1) to AED. -/
theorem C1_convert_formula_witness :
    (aedWorld.rateStoreMutex = false ∧ aedWorld.rateStore = some aedStore ∧
      mapGet aedStore.Rates "USD" = some F64.one ∧
      mapGet aedStore.Rates "AED" = some (F64.ofDec false 367 (-2))) ∧
    (convert aedWorld (F64.ofDec false 10 0) "USD" "AED" =
        .returned aedWorld
          (((F64.ofDec false 10 0).mul (F64.ofDec false 367 (-2))).div F64.one, none) ∧
      convert aedWorld (F64.ofDec false 10 0) "USD" "USD" =
        .returned aedWorld (((F64.ofDec false 10 0).mul F64.one).div F64.one, none) ∧
      (F64.one = F64.one → (F64.ofDec false 10 0).canonical = true →
        convert aedWorld (F64.ofDec false 10 0) "USD" "USD" =
          .returned aedWorld (F64.ofDec false 10 0, none))) :=
  ⟨⟨rfl, rfl, by decide, by decide⟩,
   C1_convert_formula aedWorld aedStore (F64.ofDec false 10 0) F64.one
     (F64.ofDec false 367 (-2)) "USD" "AED" rfl rfl (by decide) (by decide)⟩

/-! ## C2: failures of convert -/

/-- C2: when `rateStoreMutex` is free, `convert(amount, from, to)` fails with
"currency rates required" if `rateStore` is nil, whatever the codes; and if a
snapshot is held and `from` or `to` is absent from its rates map it fails with
"base value can't be found", the same error whether only `from`, only `to` or
both are missing. -/
theorem C2_convert_failures (w : World) (amount : F64) (a b : String)
    (hlock : w.rateStoreMutex = false) :
    (w.rateStore = none →
      convert w amount a b = .returned w (F64.zero, some (.text "currency rates required"))) ∧
    (∀ s, w.rateStore = some s → (mapGet s.Rates a = none ∨ mapGet s.Rates b = none) →
      convert w amount a b = .returned w (F64.zero, some (.text "base value can't be found"))) := by
  rw [convert_unlocked w amount a b hlock]
  constructor
  · intro h; simp [h]
  · intro s h hab
    rw [h]
    rcases hab with h1 | h1
    · simp [h1]
    · cases h2 : mapGet s.Rates a <;> simp [h1]

/-- C2, witness: `C2_convert_failures` on `aedWorld`, from USD to the unknown ZZZ. -/
theorem C2_convert_failures_witness :
    aedWorld.rateStoreMutex = false ∧
    ((aedWorld.rateStore = none →
      convert aedWorld (F64.ofDec false 10 0) "USD" "ZZZ" =
        .returned aedWorld (F64.zero, some (.text "currency rates required"))) ∧
     (∀ s, aedWorld.rateStore = some s →
      (mapGet s.Rates "USD" = none ∨ mapGet s.Rates "ZZZ" = none) →
      convert aedWorld (F64.ofDec false 10 0) "USD" "ZZZ" =
        .returned aedWorld (F64.zero, some (.text "base value can't be found")))) :=
  ⟨rfl, C2_convert_failures aedWorld (F64.ofDec false 10 0) "USD" "ZZZ" rfl⟩

/-! ## C3: a zero rate -/

/-- C3, counterexample: with XXX quoted at exactly 0 and USD present,
`convert(10, "XXX", "USD")` does not fail: it returns `+Inf` with a nil error. -/
theorem C3_counterexample :
    mapGet aedStore.Rates "XXX" = some F64.zero ∧
    mapGet aedStore.Rates "USD" = some F64.one ∧
    convert aedWorld (F64.ofDec false 10 0) "XXX" "USD"
      = .returned aedWorld (F64.inf false, none) := by
  refine ⟨by decide, by decide, by rfl⟩

/-- C3 (amended): when both codes are present and `rates[from]` is exactly zero,
`convert(amount, from, to)` does not fail: it returns the float64
`(amount * rates[to]) / 0` with a nil error, and that value is infinite or NaN. -/
theorem C3_zero_rate_returns_value (w : World) (s : RateStore) (amount z rb : F64)
    (a b : String) (hlock : w.rateStoreMutex = false) (hs : w.rateStore = some s)
    (ha : mapGet s.Rates a = some z) (hb : mapGet s.Rates b = some rb)
    (hz : z.isZero = true) :
    convert w amount a b = .returned w ((amount.mul rb).div z, none) ∧
    ((amount.mul rb).div z).isInfOrNaN = true := by
  refine ⟨?_, div_zero_isInfOrNaN _ _ hz⟩
  rw [convert_unlocked w amount a b hlock, hs]
  simp [ha, hb]

/-- C3, witness: `C3_zero_rate_returns_value` on `aedWorld`, from XXX (rate 0) to USD. -/
theorem C3_zero_rate_returns_value_witness :
    (aedWorld.rateStoreMutex = false ∧ aedWorld.rateStore = some aedStore ∧
      mapGet aedStore.Rates "XXX" = some F64.zero ∧
      mapGet aedStore.Rates "USD" = some F64.one ∧ F64.zero.isZero = true) ∧
    (convert aedWorld (F64.ofDec false 10 0) "XXX" "USD" =
        .returned aedWorld (((F64.ofDec false 10 0).mul F64.one).div F64.zero, none) ∧
      (((F64.ofDec false 10 0).mul F64.one).div F64.zero).isInfOrNaN = true) :=
  ⟨⟨rfl, rfl, by decide, by decide, by decide⟩,
   C3_zero_rate_returns_value aedWorld aedStore (F64.ofDec false 10 0) F64.zero F64.one
     "XXX" "USD" rfl rfl (by decide) (by decide) (by decide)⟩

/-! ## C4: the freshness decision -/

/-- C4, counterexample: the rates file parses to a snapshot whose timestamp is
the largest int64. On 2 November 2026 `now - ts` is far below one hour, yet
`refreshCurrencyRates` issues a provider request: `time.Unix(ts, 0)` wraps
around to an instant in the distant past and `now.Sub` saturates at the maximal
duration. -/
theorem C4_counterexample :
    farFutureWorld.ratesFile = some farFutureFile ∧
    unmarshal farFutureFile farFutureWorld.rateStore = (some farFutureStore, none) ∧
    elapsed nov2026 farFutureStore.Timestamp ≤ Hour ∧
    (refreshCurrencyRates envDown farFutureWorld).world.requests = 1 ∧
    farFutureWorld.requests = 0 := by
  refine ⟨rfl, by rfl, by decide, by rfl, rfl⟩

/-- C4 (amended): for a rates file that parses without error to a snapshot with
timestamp `ts`, an int64 with `ts + 62135596800 < 2^63` (so that
`time.Unix(ts, 0)` denotes the instant `ts`), and every clock reading `now`, the
call issues no provider request if and only if `now - ts ≤ 1 hour`; and when
`now - ts ≤ 1 hour` it returns with the request count, the write count and the
rates file unchanged, having only adopted the parsed snapshot. -/
theorem C4_freshness_decision (env : Env) (w : World) (bytes : Content) (s : RateStore)
    (hr : w.refreshMutex = false) (hl : w.rateStoreMutex = false)
    (hfile : w.ratesFile = some bytes) (hparse : unmarshal bytes w.rateStore = (some s, none))
    (hlo : -(2 ^ 63) ≤ s.Timestamp) (hhi : s.Timestamp + unixToInternal < 2 ^ 63) :
    ((refreshCurrencyRates env w).world.requests = w.requests ↔
        elapsed env.now s.Timestamp ≤ Hour) ∧
    (elapsed env.now s.Timestamp ≤ Hour →
        refreshCurrencyRates env w = .returned { w with rateStore := some s } ()) := by
  rw [refresh_unlocked env w hr hl]
  simp only [hfile, hparse, sub_timeUnix_gt_hour_iff env.now s.Timestamp hlo hhi]
  by_cases h : Hour < elapsed env.now s.Timestamp
  · simp only [h, if_true, requestAndReport_requests]
    constructor
    · constructor
      · intro h1; omega
      · intro h1; omega
    · intro h1; omega
  · simp only [h, if_false, Run.world, true_iff]
    constructor
    · omega
    · intro _; trivial

/-- C4, witness: `C4_freshness_decision` on a rates file written ten minutes
before the clock reading. -/
theorem C4_freshness_decision_witness :
    (freshFileWorld.ratesFile = some (marshal freshStore) ∧
      unmarshal (marshal freshStore) freshFileWorld.rateStore = (some freshStore, none)) ∧
    (((refreshCurrencyRates envOk freshFileWorld).world.requests = freshFileWorld.requests ↔
        elapsed envOk.now freshStore.Timestamp ≤ Hour) ∧
     (elapsed envOk.now freshStore.Timestamp ≤ Hour →
        refreshCurrencyRates envOk freshFileWorld =
          .returned { freshFileWorld with rateStore := some freshStore } ())) :=
  ⟨⟨rfl, by rfl⟩,
   C4_freshness_decision envOk freshFileWorld (marshal freshStore) freshStore rfl rfl rfl
     (by rfl) (by decide) (by decide)⟩

/-! ## C5: a stale rates file -/

/-- C6, counterexample: the provider answers 401 with its JSON error document (a
non-success response). The snapshot loaded from the stale rates file was
`aedStore`; after the call the in-memory snapshot carries a new timestamp, the
rates file has been rewritten, and no error was printed. -/
theorem C6_counterexample :
    loaded staleFileWorld = some aedStore ∧
    (refreshCurrencyRates env401 staleFileWorld).world.rateStore
      = some { aedStore with Timestamp := 1793577600 } ∧
    (refreshCurrencyRates env401 staleFileWorld).world.writes = 1 ∧
    (refreshCurrencyRates env401 staleFileWorld).world.printed = [] := by
  refine ⟨by rfl, by rfl, by rfl, by rfl⟩

/-- C6 (amended): if a fetch is issued and fails because `http.Get` fails,
reading the body fails, or the body is not valid JSON, then
`refreshCurrencyRates` returns normally with the in-memory snapshot equal to the
one loaded before the fetch, the rates file and the write count unchanged, both
mutexes released, and exactly one error printed rather than propagated. -/
theorem C6_rejected_fetch (env : Env) (w : World)
    (hr : w.refreshMutex = false) (hl : w.rateStoreMutex = false)
    (hrej : env.http.rejected = true)
    (hreq : (refreshCurrencyRates env w).world.requests ≠ w.requests) :
    ∃ err, refreshCurrencyRates env w =
      .returned { w with rateStore := loaded w, requests := w.requests + 1,
                         printed := w.printed ++ [err] } () := by
  rcases ratesFile_cases w with hf | ⟨bytes, hf⟩
  · obtain ⟨err, he⟩ := requestAndReport_rejected env { w with refreshMutex := true } hl hrej
    refine ⟨err, ?_⟩
    rw [refresh_noFile env w hr hf, he]
    simp only [loaded, hf]
    simp only [← hr]
  · rcases unmarshal_cases bytes w.rateStore with ⟨q, err0, hu⟩ | hu | ⟨s, hu⟩
    · obtain ⟨err, he⟩ := requestAndReport_rejected env
        { w with refreshMutex := true, rateStore := q } hl hrej
      refine ⟨err, ?_⟩
      rw [refresh_badFile env w hr hl bytes hf q err0 hu, he]
      simp only [loaded, hf, hu]
      simp only [← hr]
    · rw [refresh_nullFile env w hr hl bytes hf hu] at hreq
      simp [Run.world] at hreq
    · rw [refresh_goodFile env w hr hl bytes hf s hu] at hreq ⊢
      by_cases h : Hour < env.now.Sub (timeUnix s.Timestamp)
      · obtain ⟨err, he⟩ := requestAndReport_rejected env
          { w with refreshMutex := true, rateStore := some s } hl hrej
        refine ⟨err, ?_⟩
        simp only [h, if_true, he]
        simp only [loaded, hf, hu]
        simp only [← hr]
      · simp [h, Run.world] at hreq

/-- C6, witness: `C6_rejected_fetch` on a stale rates file with the provider
unreachable. -/
theorem C6_rejected_fetch_witness :
    (envDown.http.rejected = true ∧
      (refreshCurrencyRates envDown staleFileWorld).world.requests ≠ staleFileWorld.requests) ∧
    (∃ err, refreshCurrencyRates envDown staleFileWorld =
      .returned { staleFileWorld with
        rateStore := loaded staleFileWorld, requests := staleFileWorld.requests + 1,
        printed := staleFileWorld.printed ++ [err] } ()) :=
  ⟨⟨rfl, by decide⟩,
   C6_rejected_fetch envDown staleFileWorld rfl rfl rfl (by decide)⟩

/-! ## C7: two calls in succession -/

/-- C8, counterexample: the provider's document quotes only EUR and USD, the
previous snapshot also quoted AED. After `requestRates` the in-memory rates
map still holds AED, at the previous rate. -/
theorem C8_counterexample :
    mapGet (docStore eurMembers).Rates "AED" = none ∧
    (requestRates envOk aedWorld).world.rateStore = some mergedStore ∧
    mapGet mergedStore.Rates "AED" = some (F64.ofDec false 367 (-2)) := by
  refine ⟨by rfl, by rfl, by rfl⟩

/-- C8 (amended): a refresh decodes the document D into the previous snapshot P:
afterwards every currency code of D has D's rate, and base is D's base if D
assigns one; base stays P's if D assigns none, and unless D carries
`"rates": null` every rate of P for a code D lacks is kept. Both adoption
points, the provider's body in `requestRates` and the rates file in
`refreshCurrencyRates`, adopt exactly this merged snapshot. -/
theorem C8_refresh_merges (P s : RateStore) (kvs : List (String × JSON))
    (hu : unmarshal (.valid (.obj kvs)) (some P) = (some s, none)) :
    ((∀ k v, mapGet (docStore kvs).Rates k = some v → mapGet s.Rates k = some v) ∧
     (kvs.any setsBase = true → s.Base = (docStore kvs).Base) ∧
     (kvs.any setsBase = false → s.Base = P.Base) ∧
     (kvs.any clearsRates = false → ∀ k, mapGet (docStore kvs).Rates k = none →
       mapGet s.Rates k = mapGet P.Rates k)) ∧
    (∀ (env : Env) (w : World) (st : Nat), w.rateStoreMutex = false → w.rateStore = some P →
      env.http = .body st (.valid (.obj kvs)) →
      (requestRates env w).world.rateStore = some { s with Timestamp := env.stamp.Unix }) ∧
    (∀ (env : Env) (w : World), w.refreshMutex = false → w.rateStoreMutex = false →
      w.rateStore = some P → w.ratesFile = some (.valid (.obj kvs)) →
      ¬ Hour < env.now.Sub (timeUnix s.Timestamp) →
      refreshCurrencyRates env w = .returned { w with rateStore := some s } ()) := by
  refine ⟨unmarshal_overlay P s kvs none hu, ?_, ?_⟩
  · intro env w st hl hP hh
    unfold requestRates
    simp only [hh, hl, hP, hu, Bool.false_eq_true, if_false]
    cases env.write <;> rfl
  · intro env w hr hl hP hf hfresh
    rw [← hP] at hu
    rw [refresh_goodFile env w hr hl _ hf s hu, if_neg hfresh]

/-- C8, witness: `C8_refresh_merges` on `aedStore` and the EUR document. -/
theorem C8_refresh_merges_witness :
    unmarshal (.valid (.obj eurMembers)) (some aedStore)
      = (some { mergedStore with Timestamp := 1793574000 }, none) ∧
    (((∀ k v, mapGet (docStore eurMembers).Rates k = some v →
        mapGet mergedStore.Rates k = some v) ∧
      (eurMembers.any setsBase = true → mergedStore.Base = (docStore eurMembers).Base) ∧
      (eurMembers.any setsBase = false → mergedStore.Base = aedStore.Base) ∧
      (eurMembers.any clearsRates = false → ∀ k, mapGet (docStore eurMembers).Rates k = none →
        mapGet mergedStore.Rates k = mapGet aedStore.Rates k)) ∧
     (∀ (env : Env) (w : World) (st : Nat), w.rateStoreMutex = false →
        w.rateStore = some aedStore → env.http = .body st (.valid (.obj eurMembers)) →
        (requestRates env w).world.rateStore
          = some { mergedStore with Timestamp := env.stamp.Unix }) ∧
     (∀ (env : Env) (w : World), w.refreshMutex = false → w.rateStoreMutex = false →
        w.rateStore = some aedStore → w.ratesFile = some (.valid (.obj eurMembers)) →
        ¬ Hour < env.now.Sub (timeUnix 1793574000) →
        refreshCurrencyRates env w
          = .returned { w with rateStore := some { mergedStore with Timestamp := 1793574000 } }
              ())) :=
  ⟨by rfl,
   C8_refresh_merges aedStore { mergedStore with Timestamp := 1793574000 } eurMembers (by rfl)⟩

/-! ## C9: a failed write -/

/-- C9: if the provider's document D decodes without error and the file write
fails, `requestRates` returns that write error, the in-memory snapshot is the
decoded one stamped with the fetch time, it holds every rate of D, and
`convert` over any two codes of D succeeds with D's rates. -/
theorem C9_failed_write_keeps_rates (env : Env) (w : World) (st : Nat)
    (kvs : List (String × JSON)) (s : RateStore) (err : String) (left : Option Content)
    (hl : w.rateStoreMutex = false)
    (hh : env.http = .body st (.valid (.obj kvs)))
    (hu : unmarshal (.valid (.obj kvs)) w.rateStore = (some s, none))
    (hw : env.write = .failed err left) :
    ∃ w1, requestRates env w = .returned w1 (some (.file err)) ∧
      w1.rateStore = some { s with Timestamp := env.stamp.Unix } ∧
      (∀ k v, mapGet (docStore kvs).Rates k = some v → mapGet s.Rates k = some v) ∧
      (∀ amount a b ra rb, mapGet (docStore kvs).Rates a = some ra →
        mapGet (docStore kvs).Rates b = some rb →
        convert w1 amount a b = .returned w1 ((amount.mul rb).div ra, none)) := by
  have hagree : ∀ k v, mapGet (docStore kvs).Rates k = some v → mapGet s.Rates k = some v := by
    rw [unmarshal_obj] at hu
    simp only [Prod.mk.injEq, Option.some.injEq] at hu
    rw [← hu.1, docStore_eq]
    exact mapGet_foldl_ratesStep_agree kvs _ none (by simp [mapGet])
  refine ⟨{ w with
      requests := w.requests + 1, writes := w.writes + 1, rateStoreMutex := false,
      rateStore := some { s with Timestamp := env.stamp.Unix }, ratesFile := left },
    ?_, rfl, hagree, ?_⟩
  · unfold requestRates
    simp only [hh, hl, hu, hw, Bool.false_eq_true, if_false]
  · intro amount a b ra rb ha hb
    rw [convert_unlocked _ _ _ _ rfl]
    simp only [hagree a ra ha, hagree b rb hb]

/-- C9, witness: `C9_failed_write_keeps_rates` on `aedWorld` with a failing
write. -/
theorem C9_failed_write_keeps_rates_witness :
    (envWriteFails.http = .body 200 (.valid (.obj eurMembers)) ∧
      unmarshal (.valid (.obj eurMembers)) aedWorld.rateStore
        = (some { mergedStore with Timestamp := 1793574000 }, none) ∧
      envWriteFails.write = .failed "no space left on device" none) ∧
    (∃ w1, requestRates envWriteFails aedWorld
        = .returned w1 (some (.file "no space left on device")) ∧
      w1.rateStore = some { mergedStore with Timestamp := envWriteFails.stamp.Unix } ∧
      (∀ k v, mapGet (docStore eurMembers).Rates k = some v →
        mapGet mergedStore.Rates k = some v) ∧
      (∀ amount a b ra rb, mapGet (docStore eurMembers).Rates a = some ra →
        mapGet (docStore eurMembers).Rates b = some rb →
        convert w1 amount a b = .returned w1 ((amount.mul rb).div ra, none))) :=
  ⟨⟨rfl, by rfl, rfl⟩,
   C9_failed_write_keeps_rates envWriteFails aedWorld 200 eurMembers
     { mergedStore with Timestamp := 1793574000 } "no space left on device" none rfl rfl
     (by rfl) rfl⟩

/-! ## C10: the JSON text null -/

/-- C10, failing input: a rates file holding the JSON text `null`, or a provider
body `null`. `json.Unmarshal` sets `rateStore` to nil and returns no error, and
the next statement dereferences it: `refreshCurrencyRates` panics instead of
returning, with `rateStoreMutex` still held, so that a later `convert` could
not proceed. -/
theorem C10_null_panics :
    refreshCurrencyRates envOk nullFileWorld
      = .panicked { nullFileWorld with rateStoreMutex := true } ∧
    refreshCurrencyRates envNull coldWorld
      = .panicked { coldWorld with rateStoreMutex := true, requests := 1 } ∧
    convert { nullFileWorld with rateStoreMutex := true } F64.one "USD" "USD"
      = .blocked { nullFileWorld with rateStoreMutex := true } := by
  refine ⟨by rfl, by rfl, by rfl⟩


end OpenExchangeRate
